import Mathlib

/-!
Shallow embedding of the CapstoneTSU video/sensor synchronization scripts.

Python floats are modelled by exact rationals (ℚ); `int(x)` is truncation
toward zero; frame counts, pixel dimensions and indices are ℕ.
The definitions below are transcribed from:
  src/main.py                              (synchronize_timestamps, get_accel_at_time)
  src/combine_three_videos.py              (resize_to_height, create_three_video_composite)
  src/create_side_by_side_video_offset.py  (create_side_by_side_video)
  src/animate_sensor_data.py               (update, line 119)
  src/animate_single_axis_data.py          (update, lines 123-126)
-/

/-- Python `int(q)`: truncation toward zero (floor for non-negative values). -/
def pyInt (q : ℚ) : ℤ := if 0 ≤ q then ⌊q⌋ else ⌈q⌉

/-! ### Frames and geometry (combine_three_videos.py, lines 4-10) -/

/-- A decoded video frame, reduced to its pixel dimensions: `frame.shape`
in the source yields `(height, width, channels)`. -/
structure Frame where
  height : ℕ
  width : ℕ
deriving DecidableEq

/-- Function `resize_to_height` from src/combine_three_videos.py lines 4-10:
returns the frame untouched when its height already matches; a zero-height
frame makes the Python division `target_height / float(h)` raise
(modelled as `none`); otherwise the new width is
`int(w * (target_height / h))` and the height becomes the target. -/
def resize_to_height (frame : Frame) (target_height : ℕ) : Option Frame :=
  if frame.height = target_height then some frame
  else if frame.height = 0 then none
  else some ⟨target_height,
    (pyInt ((frame.width : ℚ) * ((target_height : ℚ) / (frame.height : ℚ)))).toNat⟩

/-! ### Output fps selection -/

/-- The expression `cap.get(cv2.CAP_PROP_FPS) or 30` from src/combine_three_videos.py
lines 23-25: Python `or` replaces only the falsy value `0.0`. -/
def fps_or_30 (f : ℚ) : ℚ := if f = 0 then 30 else f

/-- The fps fallback of src/create_side_by_side_video_offset.py lines 25-28:
`if fps <= 0: fps = 30`. -/
def fps_pos_or_30 (f : ℚ) : ℚ := if f ≤ 0 then 30 else f

/-- Output encoding rate of src/combine_three_videos.py line 26:
`fps = min(fps1, fps2, fps3)` after the `or 30` fallback. -/
def create_three_video_fps (f1 f2 f3 : ℚ) : ℚ :=
  min (fps_or_30 f1) (min (fps_or_30 f2) (fps_or_30 f3))

/-- Output encoding rate of src/create_side_by_side_video_offset.py line 31:
`fps = min(fps1, fps2)` after the `<= 0` fallback. -/
def create_side_by_side_fps (f1 f2 : ℚ) : ℚ :=
  min (fps_pos_or_30 f1) (fps_pos_or_30 f2)

/-! ### Leading-frame skips -/

/-- Frames skipped for one stream, src/combine_three_videos.py lines 29-34 and
src/create_side_by_side_video_offset.py lines 34-43: when the offset is
positive the stream is positioned at `int(start_offset * fps)`; otherwise no
seek happens and zero frames are skipped. -/
def skipFrames (start_offset fps : ℚ) : ℤ :=
  if 0 < start_offset then pyInt (start_offset * fps) else 0

/-- The three per-stream skips of src/combine_three_videos.py lines 29-34,
each computed with its own stream's (fallback-corrected) fps. -/
def create_three_video_skips (o1 f1 o2 f2 o3 f3 : ℚ) : ℤ × ℤ × ℤ :=
  (skipFrames o1 (fps_or_30 f1), skipFrames o2 (fps_or_30 f2),
   skipFrames o3 (fps_or_30 f3))

/-- The two per-stream skips of src/create_side_by_side_video_offset.py
lines 34-43, each computed with its own stream's (fallback-corrected) fps. -/
def create_side_by_side_skips (o1 f1 o2 f2 : ℚ) : ℤ × ℤ :=
  (skipFrames o1 (fps_pos_or_30 f1), skipFrames o2 (fps_pos_or_30 f2))

/-! ### Composite frame counts

A reader is modelled by its source frame count `n` and current position `p`;
`cap.read()` succeeds exactly when `p < n` and advances the position. -/

/-- The main loop of src/combine_three_videos.py lines 64-76: read one frame
from each of the three readers, stop at the first failure, otherwise write
one composite frame and repeat. Returns the number of frames written. -/
def compositeLoop3 (n1 n2 n3 p1 p2 p3 : ℕ) : ℕ :=
  if p1 < n1 ∧ p2 < n2 ∧ p3 < n3 then
    compositeLoop3 n1 n2 n3 (p1 + 1) (p2 + 1) (p3 + 1) + 1
  else 0
termination_by n1 - p1
decreasing_by simp_wf; omega

/-- Frames written by `create_three_video_composite`
(src/combine_three_videos.py lines 36-76) when reader `i` holds `n_i` source
frames and was seeked past `s_i` of them: the initial reads at lines 37-39
abort with no output if any reader is already exhausted; otherwise the first
composite frame is written (line 61) and the main loop runs. -/
def create_three_video_composite_frames (n1 s1 n2 s2 n3 s3 : ℕ) : ℕ :=
  if s1 < n1 ∧ s2 < n2 ∧ s3 < n3 then
    compositeLoop3 n1 n2 n3 (s1 + 1) (s2 + 1) (s3 + 1) + 1
  else 0

/-- The main loop of src/create_side_by_side_video_offset.py lines 78-96. -/
def compositeLoop2 (n1 n2 p1 p2 : ℕ) : ℕ :=
  if p1 < n1 ∧ p2 < n2 then
    compositeLoop2 n1 n2 (p1 + 1) (p2 + 1) + 1
  else 0
termination_by n1 - p1
decreasing_by simp_wf; omega

/-- Frames written by `create_side_by_side_video`
(src/create_side_by_side_video_offset.py lines 45-96): abort with no output
if either initial read fails, else write the first combined frame and loop. -/
def create_side_by_side_frames (n1 s1 n2 s2 : ℕ) : ℕ :=
  if s1 < n1 ∧ s2 < n2 then
    compositeLoop2 n1 n2 (s1 + 1) (s2 + 1) + 1
  else 0

/-! ### The sensor sample table and its queries (src/main.py)

A row of the acceleration CSV after ingestion: the `Timestamp` column
(seconds, exact rationals standing in for the parsed datetimes) and the
`X`, `Y`, `Z` acceleration columns. -/

/-- One row of the acceleration table: `Timestamp`, `X`, `Y`, `Z`. -/
structure Sample where
  timestamp : ℚ
  accelX : ℚ
  accelY : ℚ
  accelZ : ℚ
deriving DecidableEq

/-- The pandas DataFrame of src/main.py: the ingested rows plus the
`adjusted_timestamp` column, present once `synchronize_timestamps` ran. -/
structure DataFrame where
  rows : List Sample
  adjusted : Option (List ℚ)
deriving DecidableEq

/-- Function `synchronize_timestamps` from src/main.py lines 110-130: writes
`adjusted_timestamp = Timestamp + manual_offset` for every row, always
reading from the unchanged `Timestamp` column, and leaves the rows as they
were. -/
def synchronize_timestamps (df : DataFrame) (manual_offset : ℚ) : DataFrame :=
  { rows := df.rows
    adjusted := some ((df.rows.map (fun r => r.timestamp)).map (fun a => a + manual_offset)) }

/-- Minimum of a column, as pandas `.min()`: `none` on an empty column. -/
def listMin : List ℚ → Option ℚ
  | [] => none
  | x :: xs =>
    match listMin xs with
    | none => some x
    | some m => some (min x m)

/-- The `relative_sec` column of src/main.py lines 141-142: every adjusted
timestamp re-expressed as seconds from the minimum adjusted timestamp. -/
def relSeconds (adj : List ℚ) : List ℚ :=
  match listMin adj with
  | none => []
  | some m => adj.map (fun a => a - m)

/-- pandas `Series.idxmin`: index and value of the first occurrence of the
minimum; `none` on an empty series (pandas raises there). -/
def idxminVal : List ℚ → Option (ℕ × ℚ)
  | [] => none
  | x :: xs =>
    match idxminVal xs with
    | none => some (0, x)
    | some (j, v) => if x ≤ v then some (0, x) else some (j + 1, v)

/-- Function `get_accel_at_time` from src/main.py lines 135-148: compute
`relative_sec`, take `idx = (relative_sec - target_time).abs().idxmin()`,
and return `df.loc[idx]` — modelled as the positional index together with
the matched row. `none` models the pandas errors on a missing
`adjusted_timestamp` column or an empty table. -/
def get_accel_at_time (df : DataFrame) (target_time : ℚ) : Option (ℕ × Sample) :=
  df.adjusted.bind (fun adj =>
    (idxminVal ((relSeconds adj).map (fun r => |r - target_time|))).bind (fun p =>
      (df.rows.get? p.1).map (fun s => (p.1, s))))

/-! ### Render clocks of the two animation scripts -/

/-- The time computation of `update` in src/animate_sensor_data.py line 119:
`t = time_data[0] + (time_data[-1] - time_data[0]) * (frame_idx / (num_frames - 1))`,
with no guard: when `num_frames = 1` the integer division `frame_idx / 0`
raises ZeroDivisionError, modelled as `none`. -/
def animate_sensor_update_time (t0 tlast : ℚ) (num_frames frame_idx : ℕ) : Option ℚ :=
  if num_frames = 1 then none
  else some (t0 + (tlast - t0) * ((frame_idx : ℚ) / ((num_frames : ℚ) - 1)))

/-- The time computation of `update` in src/animate_single_axis_data.py
lines 123-126: the division is guarded by `if num_frames > 1`, and the
`else` branch returns `time_data[0]`. -/
def animate_single_axis_update_time (t0 tlast : ℚ) (num_frames frame_idx : ℕ) : ℚ :=
  if 1 < num_frames then t0 + (tlast - t0) * ((frame_idx : ℚ) / ((num_frames : ℚ) - 1))
  else t0

/-! ### Helper lemmas -/

theorem compositeLoop3_eq (n1 n2 n3 p1 p2 p3 : ℕ) :
    compositeLoop3 n1 n2 n3 p1 p2 p3 = min (n1 - p1) (min (n2 - p2) (n3 - p3)) := by
  induction p1, p2, p3 using compositeLoop3.induct n1 n2 n3 with
  | case1 p1 p2 p3 h ih =>
    rw [compositeLoop3, if_pos h, ih]
    omega
  | case2 p1 p2 p3 h =>
    rw [compositeLoop3, if_neg h]
    omega

theorem compositeLoop2_eq (n1 n2 p1 p2 : ℕ) :
    compositeLoop2 n1 n2 p1 p2 = min (n1 - p1) (n2 - p2) := by
  induction p1, p2 using compositeLoop2.induct n1 n2 with
  | case1 p1 p2 h ih =>
    rw [compositeLoop2, if_pos h, ih]
    omega
  | case2 p1 p2 h =>
    rw [compositeLoop2, if_neg h]
    omega

theorem skipFrames_eq_floor (o f : ℚ) (ho : 0 ≤ o) (hf : 0 < f) :
    skipFrames o f = ⌊o * f⌋ := by
  unfold skipFrames pyInt
  by_cases hpos : 0 < o
  · rw [if_pos hpos, if_pos (mul_nonneg ho hf.le)]
  · have : o = 0 := le_antisymm (not_lt.mp hpos) ho
    subst this
    simp

/-! ### Claims -/

/-- C3: for every per-stream source frame count and offset frame skip, the
composite output frame count equals the minimum over all readers of
(source frame count - skipped frames), with truncated (natural) subtraction:
a reader seeked at or past its end fails its first read and yields 0 output
frames. Holds for the three-stream and the two-stream compositor alike. -/
theorem composite_frame_count_min :
    (∀ n1 s1 n2 s2 n3 s3 : ℕ, create_three_video_composite_frames n1 s1 n2 s2 n3 s3 =
      min (n1 - s1) (min (n2 - s2) (n3 - s3))) ∧
    (∀ n1 s1 n2 s2 : ℕ, create_side_by_side_frames n1 s1 n2 s2 = min (n1 - s1) (n2 - s2)) := by
  constructor
  · intro n1 s1 n2 s2 n3 s3
    unfold create_three_video_composite_frames
    by_cases h : s1 < n1 ∧ s2 < n2 ∧ s3 < n3
    · rw [if_pos h, compositeLoop3_eq]
      omega
    · rw [if_neg h]
      omega
  · intro n1 s1 n2 s2
    unfold create_side_by_side_frames
    by_cases h : s1 < n1 ∧ s2 < n2
    · rw [if_pos h, compositeLoop2_eq]
      omega
    · rw [if_neg h]
      omega

/-- C4 counterexample: with a 0.05 s offset on a 30 fps stream the code
skips `int(0.05 * 30) = int(1.5) = 1` frame, not `round(1.5) = 2` as the
claim's formula states. -/
theorem skip_frames_round_counterexample :
    (create_side_by_side_skips (1 / 20) 30 0 30).1 ≠ round ((1 / 20 : ℚ) * 30) := by
  have hcode : (create_side_by_side_skips (1 / 20) 30 0 30).1 = 1 := by
    unfold create_side_by_side_skips skipFrames fps_pos_or_30 pyInt
    norm_num
  have hclaim : round ((1 / 20 : ℚ) * 30) = 2 := by norm_num [round_eq]
  rw [hcode, hclaim]
  decide

/-- C4 amended: for non-negative offsets and positive fps, the number of
leading frames skipped on each stream equals `int(offset * fps)` — truncation
(the floor, for these signs), not rounding — always computed with that
stream's own fps, in both compositor scripts. -/
theorem skip_frames_floor (o1 f1 o2 f2 o3 f3 : ℚ)
    (ho1 : 0 ≤ o1) (ho2 : 0 ≤ o2) (ho3 : 0 ≤ o3)
    (hf1 : 0 < f1) (hf2 : 0 < f2) (hf3 : 0 < f3) :
    create_three_video_skips o1 f1 o2 f2 o3 f3 = (⌊o1 * f1⌋, ⌊o2 * f2⌋, ⌊o3 * f3⌋) ∧
    create_side_by_side_skips o1 f1 o2 f2 = (⌊o1 * f1⌋, ⌊o2 * f2⌋) := by
  unfold create_three_video_skips create_side_by_side_skips fps_or_30 fps_pos_or_30
  rw [if_neg hf1.ne', if_neg hf2.ne', if_neg hf3.ne',
      if_neg (not_le.mpr hf1), if_neg (not_le.mpr hf2)]
  rw [skipFrames_eq_floor o1 f1 ho1 hf1, skipFrames_eq_floor o2 f2 ho2 hf2,
      skipFrames_eq_floor o3 f3 ho3 hf3]
  exact ⟨rfl, rfl⟩

/-- C4 amended, witnessed at offsets (1, 0, 1/2) s on fps (2, 3, 4). -/
theorem skip_frames_floor_witness :
    create_three_video_skips 1 2 0 3 (1 / 2) 4 = (2, 0, 2) ∧
    create_side_by_side_skips 1 2 0 3 = (2, 0) := by
  have h := skip_frames_floor 1 2 0 3 (1 / 2) 4
    (by norm_num) (by norm_num) (by norm_num) (by norm_num) (by norm_num) (by norm_num)
  rw [h.1, h.2]
  norm_num

/-- C5 counterexample: a 100-wide, 3-high frame resized to height 2 gets
width `int(100 * (2/3)) = 66`, not `round(200/3) = 67` as the claim's
rounding formula states. -/
theorem resize_round_counterexample :
    resize_to_height ⟨3, 100⟩ 2 ≠ some ⟨2, (round ((100 : ℚ) * 2 / 3)).toNat⟩ := by
  have hcode : resize_to_height ⟨3, 100⟩ 2 = some ⟨2, 66⟩ := by
    unfold resize_to_height pyInt
    norm_num
    rfl
  have hclaim : round ((100 : ℚ) * 2 / 3) = 67 := by norm_num [round_eq]
  rw [hcode, hclaim]
  decide

/-- C5 amended: `resize_to_height` returns the frame unchanged when its
height already equals the target; otherwise (for positive frame height) it
returns a frame of the target height whose width is the truncation
`int(width * target / height)` — the floor, not the nearest integer; the
200x50 frame normalized to height 100 still becomes 400x100 exactly. -/
theorem resize_to_height_dims :
    (∀ frame : Frame, resize_to_height frame frame.height = some frame) ∧
    (∀ (frame : Frame) (target : ℕ), frame.height ≠ target → 0 < frame.height →
      resize_to_height frame target =
        some ⟨target, (⌊(frame.width : ℚ) * target / (frame.height : ℚ)⌋).toNat⟩) ∧
    resize_to_height ⟨50, 200⟩ 100 = some ⟨100, 400⟩ := by
  refine ⟨fun frame => by simp [resize_to_height], fun frame target hne hpos => ?_, ?_⟩
  · unfold resize_to_height pyInt
    rw [if_neg hne, if_neg (Nat.pos_iff_ne_zero.mp hpos)]
    have hnn : (0 : ℚ) ≤ (frame.width : ℚ) * ((target : ℚ) / (frame.height : ℚ)) := by
      positivity
    rw [if_pos hnn, mul_div_assoc]
  · unfold resize_to_height pyInt
    norm_num
    rfl

/-- C5 amended, witnessed on a 200x50 frame resized to height 75. -/
theorem resize_to_height_dims_witness :
    resize_to_height ⟨50, 200⟩ 75 = some ⟨75, 300⟩ := by
  have h := resize_to_height_dims.2.1 ⟨50, 200⟩ 75 (by decide) (by decide)
  rw [h]
  norm_num
  rfl

/-- C6: for positive input frame rates (the fps > 0 invariant of opened
streams; the `or 30` fallback only replaces an invalid non-positive report)
the output encoding rate of both compositors is the minimum fps across
their input streams. -/
theorem output_fps_min (f1 f2 f3 : ℚ) (h1 : 0 < f1) (h2 : 0 < f2) (h3 : 0 < f3) :
    create_three_video_fps f1 f2 f3 = min f1 (min f2 f3) ∧
    create_side_by_side_fps f1 f2 = min f1 f2 := by
  unfold create_three_video_fps create_side_by_side_fps fps_or_30 fps_pos_or_30
  rw [if_neg h1.ne', if_neg h2.ne', if_neg h3.ne',
      if_neg (not_le.mpr h1), if_neg (not_le.mpr h2)]
  exact ⟨rfl, rfl⟩

/-- C6, witnessed at fps (3, 2, 5/2). -/
theorem output_fps_min_witness :
    create_three_video_fps 3 2 (5 / 2) = 2 ∧ create_side_by_side_fps 3 2 = 2 := by
  have h := output_fps_min 3 2 (5 / 2) (by norm_num) (by norm_num) (by norm_num)
  rw [h.1, h.2]
  norm_num

/-- C7: at `num_frames = 1` the render-time computation of
`animate_sensor_data.update` (line 119) hits the unguarded division
`frame_idx / (num_frames - 1)` and raises ZeroDivisionError (`none` here),
while the guarded sibling `animate_single_axis_data.update` returns
`time_data[0]` as the spec requires. -/
theorem animate_sensor_update_divzero :
    animate_sensor_update_time 0 5 1 0 = none ∧
    animate_single_axis_update_time 0 5 1 0 = 0 :=
  ⟨rfl, rfl⟩

/-- C9: `resize_to_height` is idempotent — resizing the result of a resize
to the same target height changes nothing, because the second application
takes the `height == target_height` no-op branch. -/
theorem resize_to_height_idempotent (frame : Frame) (h : ℕ) :
    (resize_to_height frame h).bind (fun g => resize_to_height g h) =
      resize_to_height frame h := by
  by_cases h1 : frame.height = h
  · simp [resize_to_height, h1]
  · by_cases h2 : frame.height = 0
    · rw [h2] at h1
      simp [resize_to_height, h2, h1]
    · simp [resize_to_height, h1, h2]

/-! ### Lemmas about the first-occurrence argmin and the column minimum -/

theorem idxminVal_none {xs : List ℚ} (h : idxminVal xs = none) : xs = [] := by
  cases xs with
  | nil => rfl
  | cons x tail =>
    exfalso
    simp only [idxminVal] at h
    cases htail : idxminVal tail with
    | none => rw [htail] at h; simp at h
    | some p =>
      obtain ⟨j, w⟩ := p
      rw [htail] at h
      by_cases hle : x ≤ w
      · simp [hle] at h
      · simp [hle] at h

theorem idxminVal_get {xs : List ℚ} {i : ℕ} {v : ℚ} (h : idxminVal xs = some (i, v)) :
    xs.get? i = some v := by
  induction xs generalizing i v with
  | nil => simp [idxminVal] at h
  | cons x tail ih =>
    simp only [idxminVal] at h
    cases htail : idxminVal tail with
    | none =>
      rw [htail] at h
      simp only [Option.some.injEq, Prod.mk.injEq] at h
      obtain ⟨rfl, rfl⟩ := h
      rfl
    | some p =>
      obtain ⟨j, w⟩ := p
      rw [htail] at h
      by_cases hle : x ≤ w
      · simp only [if_pos hle, Option.some.injEq, Prod.mk.injEq] at h
        obtain ⟨rfl, rfl⟩ := h
        rfl
      · simp only [if_neg hle, Option.some.injEq, Prod.mk.injEq] at h
        obtain ⟨rfl, rfl⟩ := h
        rw [List.get?_cons_succ]
        exact ih htail

theorem idxminVal_le {xs : List ℚ} {i : ℕ} {v : ℚ} (h : idxminVal xs = some (i, v)) :
    ∀ j y, xs.get? j = some y → v ≤ y := by
  induction xs generalizing i v with
  | nil => simp [idxminVal] at h
  | cons x tail ih =>
    simp only [idxminVal] at h
    cases htail : idxminVal tail with
    | none =>
      have htl : tail = [] := idxminVal_none htail
      subst htl
      rw [htail] at h
      simp only [Option.some.injEq, Prod.mk.injEq] at h
      obtain ⟨rfl, rfl⟩ := h
      intro j y hj
      cases j with
      | zero =>
        rw [List.get?_cons_zero, Option.some.injEq] at hj
        exact le_of_eq hj
      | succ jj => rw [List.get?_cons_succ] at hj; simp at hj
    | some p =>
      obtain ⟨j0, w⟩ := p
      rw [htail] at h
      have ihw := ih htail
      by_cases hle : x ≤ w
      · simp only [if_pos hle, Option.some.injEq, Prod.mk.injEq] at h
        obtain ⟨rfl, rfl⟩ := h
        intro j y hj
        cases j with
        | zero =>
          rw [List.get?_cons_zero, Option.some.injEq] at hj
          exact le_of_eq hj
        | succ jj =>
          rw [List.get?_cons_succ] at hj
          exact le_trans hle (ihw jj y hj)
      · simp only [if_neg hle, Option.some.injEq, Prod.mk.injEq] at h
        obtain ⟨rfl, rfl⟩ := h
        intro j y hj
        cases j with
        | zero =>
          rw [List.get?_cons_zero, Option.some.injEq] at hj
          exact le_trans (not_le.mp hle).le (le_of_eq hj)
        | succ jj =>
          rw [List.get?_cons_succ] at hj
          exact ihw jj y hj

theorem idxminVal_first {xs : List ℚ} {i : ℕ} {v : ℚ} (h : idxminVal xs = some (i, v)) :
    ∀ j y, xs.get? j = some y → y ≤ v → i ≤ j := by
  induction xs generalizing i v with
  | nil => simp [idxminVal] at h
  | cons x tail ih =>
    simp only [idxminVal] at h
    cases htail : idxminVal tail with
    | none =>
      rw [htail] at h
      simp only [Option.some.injEq, Prod.mk.injEq] at h
      obtain ⟨rfl, rfl⟩ := h
      intro j y _ _
      exact Nat.zero_le j
    | some p =>
      obtain ⟨j0, w⟩ := p
      rw [htail] at h
      by_cases hle : x ≤ w
      · simp only [if_pos hle, Option.some.injEq, Prod.mk.injEq] at h
        obtain ⟨rfl, rfl⟩ := h
        intro j y _ _
        exact Nat.zero_le j
      · simp only [if_neg hle, Option.some.injEq, Prod.mk.injEq] at h
        obtain ⟨rfl, rfl⟩ := h
        intro j y hj hy
        cases j with
        | zero =>
          rw [List.get?_cons_zero, Option.some.injEq] at hj
          exact absurd (le_of_eq_of_le hj hy) hle
        | succ jj =>
          rw [List.get?_cons_succ] at hj
          exact Nat.succ_le_succ (ih htail jj y hj hy)

theorem listMin_none {xs : List ℚ} (h : listMin xs = none) : xs = [] := by
  cases xs with
  | nil => rfl
  | cons x tail =>
    exfalso
    simp only [listMin] at h
    cases htail : listMin tail with
    | none => rw [htail] at h; simp at h
    | some m => rw [htail] at h; simp at h

theorem listMin_le {xs : List ℚ} {m : ℚ} (h : listMin xs = some m) :
    ∀ y ∈ xs, m ≤ y := by
  induction xs generalizing m with
  | nil => simp [listMin] at h
  | cons x tail ih =>
    simp only [listMin] at h
    cases htail : listMin tail with
    | none =>
      have htl : tail = [] := listMin_none htail
      subst htl
      rw [htail] at h
      simp only [Option.some.injEq] at h
      subst h
      intro y hy
      simp only [List.mem_singleton] at hy
      exact le_of_eq hy.symm
    | some w =>
      rw [htail] at h
      simp only [Option.some.injEq] at h
      subst h
      intro y hy
      rcases List.mem_cons.mp hy with h1 | hmem
      · rw [h1]
        exact min_le_left x w
      · exact le_trans (min_le_right x w) (ih htail y hmem)

theorem listMin_mem {xs : List ℚ} {m : ℚ} (h : listMin xs = some m) : m ∈ xs := by
  induction xs generalizing m with
  | nil => simp [listMin] at h
  | cons x tail ih =>
    simp only [listMin] at h
    cases htail : listMin tail with
    | none =>
      rw [htail] at h
      simp only [Option.some.injEq] at h
      subst h
      exact List.mem_cons_self x tail
    | some w =>
      rw [htail] at h
      simp only [Option.some.injEq] at h
      subst h
      rcases le_total x w with hxw | hwx
      · rw [min_eq_left hxw]
        exact List.mem_cons_self x tail
      · rw [min_eq_right hwx]
        exact List.mem_cons_of_mem x (ih htail)

theorem listMin_cons_of_le {x : ℚ} {xs : List ℚ} (h : ∀ y ∈ xs, x ≤ y) :
    listMin (x :: xs) = some x := by
  simp only [listMin]
  cases htail : listMin xs with
  | none => rfl
  | some m =>
    show some (min x m) = some x
    rw [min_eq_left (h m (listMin_mem htail))]

theorem listMin_map_add (xs : List ℚ) (c : ℚ) :
    listMin (xs.map (fun a => a + c)) = (listMin xs).map (fun a => a + c) := by
  induction xs with
  | nil => rfl
  | cons x tail ih =>
    simp only [List.map_cons, listMin, ih]
    cases htail : listMin tail with
    | none => rfl
    | some m =>
      show some (min (x + c) (m + c)) = some (min x m + c)
      rw [min_add_add_right]

theorem relSeconds_map_add (xs : List ℚ) (c : ℚ) :
    relSeconds (xs.map (fun a => a + c)) = relSeconds xs := by
  unfold relSeconds
  rw [listMin_map_add]
  cases h : listMin xs with
  | none => rfl
  | some m =>
    show (xs.map (fun a => a + c)).map (fun a => a - (m + c)) = xs.map (fun a => a - m)
    rw [List.map_map]
    have hfun : ((fun a => a - (m + c)) ∘ (fun a : ℚ => a + c)) = (fun a : ℚ => a - m) := by
      funext a
      simp only [Function.comp_apply]
      ring
    rw [hfun]

theorem relSeconds_get_nonneg {xs : List ℚ} :
    ∀ j y, (relSeconds xs).get? j = some y → 0 ≤ y := by
  intro j y hj
  unfold relSeconds at hj
  cases h : listMin xs with
  | none => rw [h] at hj; simp at hj
  | some m =>
    rw [h] at hj
    rw [List.get?_map] at hj
    cases hx : xs.get? j with
    | none => rw [hx] at hj; simp at hj
    | some a =>
      rw [hx] at hj
      simp only [Option.map_some', Option.some.injEq] at hj
      have hma : m ≤ a := listMin_le h a (List.get?_mem hx)
      subst hj
      linarith

theorem get_accel_eval {rows : List Sample} {a : Option (List ℚ)} {c t : ℚ} {i : ℕ} {v : ℚ}
    {s : Sample}
    (hidx : idxminVal ((relSeconds (rows.map (fun r => r.timestamp))).map
      (fun r => |r - t|)) = some (i, v))
    (hs : rows.get? i = some s) :
    get_accel_at_time (synchronize_timestamps ⟨rows, a⟩ c) t = some (i, s) := by
  simp only [get_accel_at_time, synchronize_timestamps, Option.some_bind,
    relSeconds_map_add, hidx, hs, Option.map_some']

/-- C2: the manual clock offset configured before the lookup never changes
which sample (and which row index) `get_accel_at_time` matches to a query
time: the lookup re-bases every adjusted timestamp on the minimum adjusted
timestamp, so any uniform offset cancels and the result after
`synchronize_timestamps` with offset `x` equals the result with offset `y`. -/
theorem get_accel_at_time_offset_invariant (df : DataFrame) (x y t : ℚ) :
    get_accel_at_time (synchronize_timestamps df x) t =
      get_accel_at_time (synchronize_timestamps df y) t := by
  simp only [get_accel_at_time, synchronize_timestamps, Option.some_bind, relSeconds_map_add]

/-- C8 counterexample: for the one-row series with timestamp 0 (already
carrying a zero-offset `adjusted_timestamp` column) and offset `x = 1`, the
round trip `apply_offset(apply_offset(s, 1), -1)` yields
`adjusted_timestamp = -1`, not the original series: the second application
overwrites the first instead of composing with it. -/
theorem sync_roundtrip_counterexample :
    synchronize_timestamps (synchronize_timestamps ⟨[⟨0, 1, 2, 3⟩], some [0]⟩ 1) (-1) ≠
      (⟨[⟨0, 1, 2, 3⟩], some [0]⟩ : DataFrame) := by
  intro h
  have h2 := congrArg DataFrame.adjusted h
  simp only [synchronize_timestamps, List.map_cons, List.map_nil, Option.some.injEq,
    List.cons.injEq, and_true] at h2
  norm_num at h2

/-- C8 amended: `synchronize_timestamps` always recomputes
`adjusted_timestamp` from the untouched `Timestamp` column, so applying
offset `x` and then `-x` equals applying `-x` alone — the round trip leaves
the original timestamps (the rows) unchanged but sets the adjusted
timestamps to `Timestamp - x` instead of restoring them; the spec's law
`apply_offset(apply_offset(s, x), -x) = s` holds only in this weakened form. -/
theorem sync_roundtrip_amended (s : DataFrame) (x : ℚ) :
    synchronize_timestamps (synchronize_timestamps s x) (-x) =
      synchronize_timestamps s (-x) ∧
    (synchronize_timestamps (synchronize_timestamps s x) (-x)).rows = s.rows :=
  ⟨rfl, rfl⟩

theorem idxminVal_isSome {xs : List ℚ} (h : xs ≠ []) : ∃ p, idxminVal xs = some p := by
  cases hx : idxminVal xs with
  | none => exact absurd (idxminVal_none hx) h
  | some p => exact ⟨p, rfl⟩

theorem idxminVal_of_min_at_zero {xs : List ℚ} {v0 : ℚ} (h0 : xs.get? 0 = some v0)
    (hmin : ∀ j y, xs.get? j = some y → v0 ≤ y) : idxminVal xs = some (0, v0) := by
  have hne : xs ≠ [] := by
    intro hnil
    subst hnil
    simp at h0
  obtain ⟨⟨i, v⟩, hidx⟩ := idxminVal_isSome hne
  have hgi := idxminVal_get hidx
  have hv : v = v0 := le_antisymm (idxminVal_le hidx 0 v0 h0) (hmin i v hgi)
  have hi : i ≤ 0 := idxminVal_first hidx 0 v0 h0 (le_of_eq hv.symm)
  obtain rfl : i = 0 := Nat.le_zero.mp hi
  obtain rfl : v = v0 := hv
  exact hidx

theorem idxminVal_of_unique_min {xs : List ℚ} {i : ℕ} {v : ℚ}
    (hget : xs.get? i = some v)
    (hmin : ∀ j y, xs.get? j = some y → j ≠ i → v < y) :
    idxminVal xs = some (i, v) := by
  have hne : xs ≠ [] := by
    intro hnil
    subst hnil
    simp at hget
  obtain ⟨⟨i0, v0⟩, hidx⟩ := idxminVal_isSome hne
  have hg0 := idxminVal_get hidx
  by_cases hii : i0 = i
  · subst hii
    rw [hget, Option.some.injEq] at hg0
    rw [hidx, hg0]
  · exact absurd (hmin i0 v0 hg0 hii) (not_lt.mpr (idxminVal_le hidx i v hget))

theorem rel_entry {rows : List Sample} {m : ℚ}
    (hm : listMin (rows.map (fun r => r.timestamp)) = some m) {j : ℕ} {rj : ℚ} :
    (relSeconds (rows.map (fun r => r.timestamp))).get? j = some rj ↔
      ∃ sj, rows.get? j = some sj ∧ rj = sj.timestamp - m := by
  unfold relSeconds
  rw [hm, List.get?_map, List.get?_map]
  cases hr : rows.get? j with
  | none => simp
  | some sj => simp [eq_comm]

/-- C1: for every non-empty sorted sample series, any configured clock
offset, and every query time `t` (expressed, as the code's contract states,
in the relative frame the lookup uses: seconds from the minimum adjusted
timestamp), `get_accel_at_time` returns a row whose relative timestamp
differs from `t` by no more than that of any other row of the series, and
when two rows are equally close the one with the lower index is returned. -/
theorem get_accel_at_time_nearest (rows : List Sample) (c t : ℚ)
    (hne : rows ≠ [])
    (hsorted : List.Sorted (fun a b : Sample => a.timestamp ≤ b.timestamp) rows) :
    ∃ i s ri,
      get_accel_at_time (synchronize_timestamps ⟨rows, none⟩ c) t = some (i, s) ∧
      rows.get? i = some s ∧
      (relSeconds (rows.map (fun r => r.timestamp))).get? i = some ri ∧
      ∀ j rj, (relSeconds (rows.map (fun r => r.timestamp))).get? j = some rj →
        |ri - t| ≤ |rj - t| ∧ (|rj - t| = |ri - t| → i ≤ j) := by
  have hcolne : rows.map (fun r => r.timestamp) ≠ [] := by
    simpa using hne
  obtain ⟨m, hm⟩ : ∃ m, listMin (rows.map (fun r => r.timestamp)) = some m := by
    cases hx : listMin (rows.map (fun r => r.timestamp)) with
    | none => exact absurd (listMin_none hx) hcolne
    | some m => exact ⟨m, rfl⟩
  have hrel : relSeconds (rows.map (fun r => r.timestamp)) =
      (rows.map (fun r => r.timestamp)).map (fun a => a - m) := by
    unfold relSeconds
    rw [hm]
  have hdlne : (relSeconds (rows.map (fun r => r.timestamp))).map (fun r => |r - t|) ≠ [] := by
    rw [hrel]
    simpa using hne
  obtain ⟨⟨i, v⟩, hidx⟩ := idxminVal_isSome hdlne
  have hdi := idxminVal_get hidx
  rw [List.get?_map] at hdi
  cases hri : (relSeconds (rows.map (fun r => r.timestamp))).get? i with
  | none => rw [hri] at hdi; simp at hdi
  | some ri =>
    rw [hri] at hdi
    simp only [Option.map_some', Option.some.injEq] at hdi
    have hi_lt : i < rows.length := by
      have h1 := (List.get?_eq_some.mp hri).1
      rw [hrel] at h1
      simpa using h1
    obtain ⟨s, hs⟩ : ∃ s, rows.get? i = some s :=
      ⟨rows.get ⟨i, hi_lt⟩, List.get?_eq_get hi_lt⟩
    refine ⟨i, s, ri, get_accel_eval hidx hs, hs, hri, ?_⟩
    intro j rj hrj
    have hdj : ((relSeconds (rows.map (fun r => r.timestamp))).map
        (fun r => |r - t|)).get? j = some (|rj - t|) := by
      rw [List.get?_map, hrj]
      rfl
    refine ⟨le_of_eq_of_le hdi (idxminVal_le hidx j _ hdj), fun heq => ?_⟩
    exact idxminVal_first hidx j _ hdj (le_of_eq (heq.trans hdi))

/-- C1, witnessed on the one-row series with timestamp 0 queried at 1/2. -/
theorem get_accel_at_time_nearest_witness :
    ∃ i s ri,
      get_accel_at_time (synchronize_timestamps ⟨[⟨0, 1, 2, 3⟩], none⟩ 0) (1 / 2) =
        some (i, s) ∧
      ([⟨0, 1, 2, 3⟩] : List Sample).get? i = some s ∧
      (relSeconds (([⟨0, 1, 2, 3⟩] : List Sample).map (fun r => r.timestamp))).get? i =
        some ri ∧
      ∀ j rj,
        (relSeconds (([⟨0, 1, 2, 3⟩] : List Sample).map (fun r => r.timestamp))).get? j =
          some rj →
        |ri - 1 / 2| ≤ |rj - 1 / 2| ∧ (|rj - 1 / 2| = |ri - 1 / 2| → i ≤ j) :=
  get_accel_at_time_nearest [⟨0, 1, 2, 3⟩] 0 (1 / 2) (by simp) (by simp)

/-- C10 counterexample: on the sorted series with duplicated final
timestamps [(0,...), (5,...), (5,...)], the query time 10 lies after the
last timestamp, yet `get_accel_at_time` returns the EARLIEST row carrying
the maximal timestamp (index 1), not the last sample (index 2), whose
values differ — `idxmin` keeps the first occurrence of the minimal
distance. -/
theorem get_accel_after_last_counterexample :
    get_accel_at_time
      (synchronize_timestamps ⟨[⟨0, 1, 0, 0⟩, ⟨5, 2, 0, 0⟩, ⟨5, 3, 0, 0⟩], none⟩ 0) 10 =
      some (1, ⟨5, 2, 0, 0⟩) ∧
    ([⟨0, 1, 0, 0⟩, ⟨5, 2, 0, 0⟩, ⟨5, 3, 0, 0⟩] : List Sample).get? 2 =
      some ⟨5, 3, 0, 0⟩ ∧
    (⟨5, 2, 0, 0⟩ : Sample) ≠ ⟨5, 3, 0, 0⟩ := by
  refine ⟨by norm_num [get_accel_at_time, synchronize_timestamps, relSeconds,
    listMin, idxminVal], rfl, ?_⟩
  intro h
  have h2 := congrArg Sample.accelX h
  norm_num at h2

/-- C10 amended: querying an empty series fails (no sample is ever
returned); on a non-empty sorted series a query time at or before the first
relative timestamp returns the first sample, and a query time at or after
the last relative timestamp returns the last sample PROVIDED the last
timestamp strictly exceeds every earlier one — with duplicated trailing
timestamps the code instead returns the earliest row carrying the maximal
timestamp, per the lower-index tie rule. -/
theorem get_accel_edge_cases :
    (∀ c t : ℚ, get_accel_at_time (synchronize_timestamps ⟨[], none⟩ c) t = none) ∧
    (∀ (rows : List Sample) (c t : ℚ), rows ≠ [] →
      List.Sorted (fun a b : Sample => a.timestamp ≤ b.timestamp) rows →
      t ≤ 0 →
      ∃ s0, rows.get? 0 = some s0 ∧
        get_accel_at_time (synchronize_timestamps ⟨rows, none⟩ c) t = some (0, s0)) ∧
    (∀ (rows : List Sample) (c t : ℚ) (s0 slast : Sample),
      rows.get? 0 = some s0 →
      rows.get? (rows.length - 1) = some slast →
      List.Sorted (fun a b : Sample => a.timestamp ≤ b.timestamp) rows →
      (∀ j sj, j < rows.length - 1 → rows.get? j = some sj →
        sj.timestamp < slast.timestamp) →
      slast.timestamp - s0.timestamp ≤ t →
      get_accel_at_time (synchronize_timestamps ⟨rows, none⟩ c) t =
        some (rows.length - 1, slast)) := by
  refine ⟨fun c t => rfl, ?_, ?_⟩
  · intro rows c t hne hsorted ht
    cases rows with
    | nil => exact absurd rfl hne
    | cons s0 rest =>
      refine ⟨s0, rfl, ?_⟩
      obtain ⟨hhead, -⟩ := List.sorted_cons.mp hsorted
      have hm : listMin ((s0 :: rest).map (fun r => r.timestamp)) = some s0.timestamp := by
        rw [List.map_cons]
        refine listMin_cons_of_le ?_
        intro y hy
        obtain ⟨b, hb, rfl⟩ := List.mem_map.mp hy
        exact hhead b hb
      have hrel0 : (relSeconds ((s0 :: rest).map (fun r => r.timestamp))).get? 0 =
          some 0 := by
        rw [rel_entry hm]
        exact ⟨s0, rfl, by ring⟩
      have hd0 : ((relSeconds ((s0 :: rest).map (fun r => r.timestamp))).map
          (fun r => |r - t|)).get? 0 = some (|0 - t|) := by
        rw [List.get?_map, hrel0]
        rfl
      have hmin : ∀ j y, ((relSeconds ((s0 :: rest).map (fun r => r.timestamp))).map
          (fun r => |r - t|)).get? j = some y → |0 - t| ≤ y := by
        intro j y hj
        rw [List.get?_map] at hj
        cases hq : (relSeconds ((s0 :: rest).map (fun r => r.timestamp))).get? j with
        | none => rw [hq] at hj; simp at hj
        | some rj =>
          rw [hq] at hj
          simp only [Option.map_some', Option.some.injEq] at hj
          subst hj
          have h0le : 0 ≤ rj := relSeconds_get_nonneg j rj hq
          have h1 : |(0 : ℚ) - t| = -t := by
            rw [zero_sub, abs_neg, abs_of_nonpos ht]
          have h2 : rj - t ≤ |rj - t| := le_abs_self _
          rw [h1]
          linarith
      exact get_accel_eval (idxminVal_of_min_at_zero hd0 hmin) rfl
  · intro rows c t s0 slast h0 hlast hsorted huniq ht
    cases rows with
    | nil => simp at h0
    | cons a rest =>
      rw [List.get?_cons_zero, Option.some.injEq] at h0
      subst h0
      obtain ⟨hhead, -⟩ := List.sorted_cons.mp hsorted
      have hm : listMin ((a :: rest).map (fun r => r.timestamp)) = some a.timestamp := by
        rw [List.map_cons]
        refine listMin_cons_of_le ?_
        intro y hy
        obtain ⟨b, hb, rfl⟩ := List.mem_map.mp hy
        exact hhead b hb
      have hrelL : (relSeconds ((a :: rest).map (fun r => r.timestamp))).get?
          ((a :: rest).length - 1) = some (slast.timestamp - a.timestamp) := by
        rw [rel_entry hm]
        exact ⟨slast, hlast, rfl⟩
      have hdL : ((relSeconds ((a :: rest).map (fun r => r.timestamp))).map
          (fun r => |r - t|)).get? ((a :: rest).length - 1) =
          some (|slast.timestamp - a.timestamp - t|) := by
        rw [List.get?_map, hrelL]
        rfl
      have habsL : |slast.timestamp - a.timestamp - t| =
          t - (slast.timestamp - a.timestamp) := by
        rw [abs_of_nonpos (by linarith)]
        ring
      have hminL : ∀ j y, ((relSeconds ((a :: rest).map (fun r => r.timestamp))).map
          (fun r => |r - t|)).get? j = some y → j ≠ (a :: rest).length - 1 →
          |slast.timestamp - a.timestamp - t| < y := by
        intro j y hj hjne
        rw [List.get?_map] at hj
        cases hq : (relSeconds ((a :: rest).map (fun r => r.timestamp))).get? j with
        | none => rw [hq] at hj; simp at hj
        | some rj =>
          rw [hq] at hj
          simp only [Option.map_some', Option.some.injEq] at hj
          subst hj
          obtain ⟨sj, hsj, rfl⟩ := (rel_entry hm).mp hq
          have hjlt : j < (a :: rest).length := (List.get?_eq_some.mp hsj).1
          have hjlt1 : j < (a :: rest).length - 1 := by
            simp only [List.length_cons] at hjlt hjne ⊢
            omega
          have hlt : sj.timestamp < slast.timestamp := huniq j sj hjlt1 hsj
          rw [habsL]
          have h2 : t - (sj.timestamp - a.timestamp) ≤
              |sj.timestamp - a.timestamp - t| := by
            rw [abs_sub_comm]
            exact le_abs_self _
          linarith
      exact get_accel_eval (idxminVal_of_unique_min hdL hminL) hlast

/-- C10 amended, witnessed: empty series with offset 3 queried at 7;
the two-row series [(0,...), (2,...)] with offset 1 queried before the
first (-1) and after the last (5) relative timestamp. -/
theorem get_accel_edge_cases_witness :
    get_accel_at_time (synchronize_timestamps (⟨[], none⟩ : DataFrame) 3) 7 = none ∧
    get_accel_at_time
      (synchronize_timestamps (⟨[⟨0, 1, 2, 3⟩, ⟨2, 4, 5, 6⟩], none⟩ : DataFrame) 1)
      (-1) = some (0, ⟨0, 1, 2, 3⟩) ∧
    get_accel_at_time
      (synchronize_timestamps (⟨[⟨0, 1, 2, 3⟩, ⟨2, 4, 5, 6⟩], none⟩ : DataFrame) 1)
      5 = some (1, ⟨2, 4, 5, 6⟩) := by
  refine ⟨get_accel_edge_cases.1 3 7, ?_, ?_⟩
  · obtain ⟨s0, h0, hq⟩ := get_accel_edge_cases.2.1 [⟨0, 1, 2, 3⟩, ⟨2, 4, 5, 6⟩] 1 (-1)
      (by simp) (by norm_num [List.sorted_cons]) (by norm_num)
    rw [List.get?_cons_zero, Option.some.injEq] at h0
    subst h0
    exact hq
  · have h := get_accel_edge_cases.2.2 [⟨0, 1, 2, 3⟩, ⟨2, 4, 5, 6⟩] 1 5
      ⟨0, 1, 2, 3⟩ ⟨2, 4, 5, 6⟩ rfl rfl (by norm_num [List.sorted_cons])
      (by
        intro j sj hj hget
        simp only [List.length_cons, List.length_nil] at hj
        have hj0 : j = 0 := by omega
        subst hj0
        rw [List.get?_cons_zero, Option.some.injEq] at hget
        subst hget
        norm_num)
      (by norm_num)
    simpa using h
